import Mathlib

/-!
# Verification of the SHL assessment recommender

Shallow embedding of the recommender's core pipeline, translated from
`recommendation_engine.py` (vector backend, class `AssessmentRecommender`),
`simple_recommender.py` (lexical backend, class `SimpleAssessmentRecommender`)
and the `/recommend` endpoint handler of `fastapi_backend.py` (its input
validation and its catch-all exception wrapping).

Python floats are modelled as exact rationals (`ℚ`); Python strings as `String`
or `List Char`; Python sets of test types as duplicate-free `List String`
(Python's set iteration order is unspecified, so theorems that depend on the
set are stated for an arbitrary order).  The embedding model for the
black-box embedding/FAISS backend is a parameter `search` producing the ranked
`(assessment, similarity_score)` sequence the index returns.
-/

/-! ## Character and string utilities (Python `str` semantics) -/

/-- The whitespace class of Python's `str.split`, `str.strip` and regex `\s`
(ASCII part). -/
def pyIsSpace (c : Char) : Bool :=
  c == ' ' || c == '\t' || c == '\n' || c == '\r' || c == '\x0b' || c == '\x0c'

/-- Python `str.strip()`: drop leading and trailing whitespace. -/
def pyStrip (l : List Char) : List Char :=
  ((l.dropWhile pyIsSpace).reverse.dropWhile pyIsSpace).reverse

/-- Python's substring test `needle in haystack`. -/
def containsSub (needle : List Char) : List Char → Bool
  | [] => needle.isEmpty
  | c :: rest => needle.isPrefixOf (c :: rest) || containsSub needle rest

/-- Python `str.split()` (split on whitespace runs, no empty words). -/
def pyWordsAux : List Char → List Char → List (List Char)
  | [], acc => if acc.isEmpty then [] else [acc.reverse]
  | c :: rest, acc =>
    if pyIsSpace c then
      if acc.isEmpty then pyWordsAux rest [] else acc.reverse :: pyWordsAux rest []
    else pyWordsAux rest (c :: acc)

/-- Python `str.split()` on a character list. -/
def pyWords (l : List Char) : List (List Char) := pyWordsAux l []

/-- Value of a decimal digit string, as produced by Python `int(...)`. -/
def natFromDigits (ds : List Char) : Nat :=
  ds.foldl (fun acc c => 10 * acc + (c.toNat - 48)) 0

/-- Split a maximal leading run of decimal digits (regex `\d+`, greedy). -/
def splitDigits : List Char → List Char × List Char
  | [] => ([], [])
  | c :: rest =>
    if c.isDigit then
      let p := splitDigits rest
      (c :: p.1, p.2)
    else ([], c :: rest)

/-- Drop a maximal leading run of whitespace (regex `\s*`, greedy). -/
def dropSpaces : List Char → List Char
  | [] => []
  | c :: rest => if pyIsSpace c then dropSpaces rest else c :: rest

/-! ## Regex searches used for time-limit extraction

`re.search(r'(\d+)\s*minutes?', q)` finds the leftmost position where a
digit run, optional whitespace and the literal `minute` occur (the optional
final `s` never affects whether a match exists, nor the captured number);
the captured group is the maximal digit run.  Likewise for `mins?`/`hours?`.
-/

/-- Whether `(\d+)\s*<word>` matches at the start of `l`; returns the
captured number. -/
def matchNumWordAt (word : List Char) (l : List Char) : Option Nat :=
  let p := splitDigits l
  if p.1.isEmpty then none
  else if word.isPrefixOf (dropSpaces p.2) then some (natFromDigits p.1)
  else none

/-- `re.search` for `(\d+)\s*<word>`: leftmost match wins. -/
def searchNumWord (word : List Char) : List Char → Option Nat
  | [] => none
  | c :: rest =>
    match matchNumWordAt word (c :: rest) with
    | some n => some n
    | none => searchNumWord word rest

/-- `re.search(r'less than (\d+)', q)`: literal `less than `, a single space,
then a digit run (the capture). -/
def searchLessThan : List Char → Option Nat
  | [] => none
  | c :: rest =>
    if ("less than ".toList).isPrefixOf (c :: rest) then
      let ds := (splitDigits ((c :: rest).drop 10)).1
      if ds.isEmpty then searchLessThan rest else some (natFromDigits ds)
    else searchLessThan rest

/-- The `for pattern, multiplier in time_patterns: ... break` loop with its
default of 120: the first matching pattern's capture, scaled, wins. -/
def extractTimeLimit : List ((List Char → Option Nat) × Nat) → List Char → Nat
  | [], _ => 120
  | (p, m) :: rest, q =>
    match p q with
    | some n => n * m
    | none => extractTimeLimit rest q

/-- The engine's `time_patterns` list (recommendation_engine.py lines 108-113). -/
def engine_time_patterns : List ((List Char → Option Nat) × Nat) :=
  [ (searchNumWord "minute".toList, 1),
    (searchNumWord "min".toList, 1),
    (searchNumWord "hour".toList, 60),
    (searchLessThan, 1) ]

/-- The simple backend's `time_patterns` list (simple_recommender.py lines
66-70): the `less than` pattern is absent. -/
def simple_time_patterns : List ((List Char → Option Nat) × Nat) :=
  [ (searchNumWord "minute".toList, 1),
    (searchNumWord "min".toList, 1),
    (searchNumWord "hour".toList, 60) ]

/-! ## Data model -/

/-- A catalog record from `shl_assessments.json`. -/
structure Assessment where
  name : String
  url : String
  description : String
  test_type : String
  duration_minutes : Nat
  skills : List String
deriving DecidableEq, Repr

/-- A per-query candidate of the vector engine: the copied record plus the
two score fields written by `recommend` (value equality of the Python dict is
equality of all fields, scores included). -/
structure Candidate where
  assessment : Assessment
  similarity_score : ℚ
  final_score : ℚ
deriving DecidableEq, Repr

/-- A per-query candidate of the simple backend: the copied record plus the
integer `final_score`. -/
structure SimpleCandidate where
  assessment : Assessment
  final_score : Nat
deriving DecidableEq, Repr

/-- The engine's `requirements` dict. -/
structure Requirements where
  skills : List String
  test_types : List String
  time_limit : Nat
  experience_level : String
deriving DecidableEq, Repr

/-- The simple backend's `requirements` dict (no experience level). -/
structure SimpleRequirements where
  skills : List String
  test_types : List String
  time_limit : Nat
deriving DecidableEq, Repr

/-- `set.add`: Python set insertion, modelled on a duplicate-free list. -/
def insertTT (t : String) (l : List String) : List String :=
  if t ∈ l then l else l ++ [t]

/-- The test-type construction shared verbatim by both `parse_query`
implementations: three keyword-group adds, then the technical/soft skill
rules (`update(['K','P'])` adds `K` then `P`). -/
def buildTestTypes (hasP hasC hasK hasTech hasSoft : Bool) : List String :=
  let tt : List String := []
  let tt := if hasP then insertTT "P" tt else tt
  let tt := if hasC then insertTT "C" tt else tt
  let tt := if hasK then insertTT "K" tt else tt
  if hasTech && hasSoft then insertTT "P" (insertTT "K" tt)
  else if hasTech then insertTT "K" tt
  else if hasSoft then insertTT "P" tt
  else tt

/-- The fixed 16-keyword skill vocabulary shared by both backends (the engine
stores it as a Python set whose iteration order is unspecified; no theorem
below depends on the order of the extracted skills list). -/
def skill_keywords : List String :=
  ["java", "python", "sql", "javascript", "excel", "tableau",
   "leadership", "communication", "sales", "analytical", "english",
   "collaboration", "teamwork", "management", "marketing", "finance"]

/-- `any(word in query_lower for word in ws)`. -/
def anyWord (ws : List String) (q : List Char) : Bool :=
  ws.any (fun w => containsSub w.toList q)

/-! ## Generic list operations shared by both backends -/

/-- One step of Python's stable sort, descending by key: the new element is
placed after every element whose key is `≥` its own. -/
def insertDescBy {α β : Type} [LinearOrder β] (key : α → β) (c : α) :
    List α → List α
  | [] => [c]
  | d :: rest =>
    if key d < key c then c :: d :: rest else d :: insertDescBy key c rest

/-- `list.sort(key=..., reverse=True)`: Python's sort is stable and
`reverse=True` keeps equal-key elements in their original order, so it is
extensionally the stable insertion sort, descending by key. -/
def pySortByDesc {α β : Type} [LinearOrder β] (key : α → β) (l : List α) :
    List α :=
  l.foldl (fun acc c => insertDescBy key c acc) []

/-- The per-type pass of `balance_recommendations`: for each required test
type, take up to `slots` candidates of that type, in candidate order
(grouping by type then slicing `by_type[t][:slots]` equals slicing the
type-filtered list). -/
def perTypeSelect {α : Type} (key : α → String) (candidates : List α)
    (slots : Nat) : List String → List α
  | [] => []
  | t :: ts =>
    (candidates.filter (fun c => key c == t)).take slots
      ++ perTypeSelect key candidates slots ts

/-- The engine's fill pass (recommendation_engine.py lines 200-204): append
any not-yet-included candidate, Python `in` being value equality, breaking
once `top_k` is reached. -/
def fillLoop {α : Type} [DecidableEq α] (top_k : Nat) :
    List α → List α → List α
  | [], balanced => balanced
  | c :: rest, balanced =>
    if c ∈ balanced then fillLoop top_k rest balanced
    else if top_k ≤ balanced.length + 1 then balanced ++ [c]
    else fillLoop top_k rest (balanced ++ [c])

/-- The simple backend's fill pass (simple_recommender.py lines 124-128):
same appends, driven by a `remaining` counter instead of a break. -/
def fillLoopCounter {α : Type} [DecidableEq α] :
    List α → List α → Int → List α
  | [], balanced, _ => balanced
  | c :: rest, balanced, remaining =>
    if c ∉ balanced ∧ 0 < remaining then
      fillLoopCounter rest (balanced ++ [c]) (remaining - 1)
    else fillLoopCounter rest balanced remaining

namespace AssessmentRecommender

/-- `AssessmentRecommender.parse_query` (recommendation_engine.py lines
97-155). -/
def parse_query (query : String) : Requirements :=
  let q := query.toList.map Char.toLower
  let time_limit := extractTimeLimit engine_time_patterns q
  let experience_level :=
    if anyWord ["entry", "graduate", "junior", "new"] q then "entry"
    else if anyWord ["senior", "lead", "principal"] q then "senior"
    else "mid"
  let skills := skill_keywords.filter (fun s => containsSub s.toList q)
  let test_types := buildTestTypes
    (anyWord ["personality", "behavior", "cultural fit"] q)
    (anyWord ["cognitive", "reasoning", "aptitude"] q)
    (anyWord ["technical", "skill", "programming", "knowledge"] q)
    (["java", "python", "sql", "javascript"].any (· ∈ skills))
    (["communication", "leadership", "collaboration"].any (· ∈ skills))
  { skills := skills, test_types := test_types, time_limit := time_limit,
    experience_level := experience_level }

/-- `AssessmentRecommender.calculate_boost` (lines 157-171):
`set(assessment['skills']) & set(requirements['skills'])` counts distinct
common skills. -/
def calculate_boost (assessment : Assessment) (requirements : Requirements) :
    ℚ :=
  let boost : ℚ := 1
  let matched_skills :=
    assessment.skills.dedup.filter (fun s => s ∈ requirements.skills)
  let boost :=
    if requirements.skills ≠ [] ∧ matched_skills ≠ [] then
      boost * (1 + (1 / 5) * (matched_skills.length : ℚ))
    else boost
  if requirements.test_types ≠ [] ∧
      assessment.test_type ∈ requirements.test_types then
    boost * (13 / 10)
  else boost

/-- The filter-and-score loop of `recommend` (lines 74-85): keep candidates
within the time limit, copying the record and writing the two score fields. -/
def scoreFilter (requirements : Requirements) (time_limit : Nat)
    (ranked : List (Assessment × ℚ)) : List Candidate :=
  ranked.filterMap (fun p =>
    if p.1.duration_minutes ≤ time_limit then
      some { assessment := p.1, similarity_score := p.2,
             final_score := p.2 * calculate_boost p.1 requirements }
    else none)

/-- `AssessmentRecommender.balance_recommendations` (lines 173-208). -/
def balance_recommendations (candidates : List Candidate)
    (requirements : Requirements) (top_k : Nat) : List Candidate :=
  if 1 < requirements.test_types.length then
    let slots_per_type := top_k / requirements.test_types.length
    let balanced := perTypeSelect (fun c => c.assessment.test_type)
      candidates slots_per_type requirements.test_types
    if balanced.length < top_k then fillLoop top_k candidates balanced
    else balanced
  else candidates

/-- `AssessmentRecommender.recommend` (lines 46-95): the FAISS search is the
black-box parameter `search`, returning the ranked `(assessment, score)`
sequence for the query. -/
def recommend (search : String → List (Assessment × ℚ)) (query : String)
    (top_k : Nat) (time_limit : Option Nat) : List Candidate :=
  let requirements := parse_query query
  let tl := time_limit.getD requirements.time_limit
  let candidates := scoreFilter requirements tl (search query)
  let sorted := pySortByDesc (fun c => c.final_score) candidates
  (balance_recommendations sorted requirements top_k).take top_k

end AssessmentRecommender

/-- The recommender's shared state: the catalog loaded once in `__init__`
(`self.assessments`).  Every statement of `recommend` only reads it
(`self.assessments[idx].copy()`); score fields are written to the copy. -/
structure EngineState where
  assessments : List Assessment
deriving DecidableEq, Repr

namespace AssessmentRecommender

/-- `recommend` with the shared state made explicit: each step is translated
from the source in order, threading `st` through; no step writes to
`st.assessments`, so the call returns the state it was given. -/
def recommendSt (search : EngineState → String → List (Assessment × ℚ))
    (st : EngineState) (query : String) (top_k : Nat)
    (time_limit : Option Nat) : List Candidate × EngineState :=
  let requirements := parse_query query
  let tl := time_limit.getD requirements.time_limit
  let candidates := scoreFilter requirements tl (search st query)
  let sorted := pySortByDesc (fun c => c.final_score) candidates
  ((balance_recommendations sorted requirements top_k).take top_k, st)

end AssessmentRecommender

/-- Modelled from the spec: the fill pass with its membership test "by stable
identity/key (e.g. assessment url)" instead of the source's value-equality
`candidate not in balanced`; defined only to compare against `fillLoop`. -/
def fillLoopByUrl (top_k : Nat) : List Candidate → List Candidate → List Candidate
  | [], balanced => balanced
  | c :: rest, balanced =>
    if balanced.any (fun d => d.assessment.url == c.assessment.url) then
      fillLoopByUrl top_k rest balanced
    else if top_k ≤ balanced.length + 1 then balanced ++ [c]
    else fillLoopByUrl top_k rest (balanced ++ [c])

/-- Modelled from the spec: `balance_recommendations` with the url-keyed fill
pass of `fillLoopByUrl` in place of value-equality membership. -/
def balanceByUrl (candidates : List Candidate) (requirements : Requirements)
    (top_k : Nat) : List Candidate :=
  if 1 < requirements.test_types.length then
    let slots_per_type := top_k / requirements.test_types.length
    let balanced := perTypeSelect (fun c => c.assessment.test_type)
      candidates slots_per_type requirements.test_types
    if balanced.length < top_k then fillLoopByUrl top_k candidates balanced
    else balanced
  else candidates

/-- An `HTTPException` of the endpoint: status code and detail string. -/
structure HttpError where
  status_code : Nat
  detail : String
deriving DecidableEq, Repr

/-- `str(e)` for a fastapi/starlette `HTTPException`:
`f"{status_code}: {detail}"`. -/
def httpErrorText (e : HttpError) : String :=
  toString e.status_code ++ ": " ++ e.detail

/-- The `try`-block body of the `/recommend` endpoint
(`recommend_assessments`, fastapi_backend.py lines 86-119): an empty or
whitespace-only query raises `HTTPException(400, "Query cannot be empty")`
before the engine runs; otherwise `max_results` is clamped to 1..10 and the
engine is called. -/
def recommend_assessments_try (search : String → List (Assessment × ℚ))
    (query : String) (max_results : Nat) (time_limit : Option Nat) :
    Except HttpError (List Candidate) :=
  if query.toList.isEmpty || (pyStrip query.toList).isEmpty then
    Except.error { status_code := 400, detail := "Query cannot be empty" }
  else
    let mr := min (max max_results 1) 10
    Except.ok (AssessmentRecommender.recommend search query mr time_limit)

/-- The whole `/recommend` endpoint handler (fastapi_backend.py lines
86-122): the catch-all `except Exception as e` at lines 121-122 intercepts
every exception raised in the `try` block — including the deliberate
HTTP 400, since `HTTPException` subclasses `Exception` — and re-raises it as
`HTTPException(500, f"Error generating recommendations: {str(e)}")`. -/
def recommend_assessments (search : String → List (Assessment × ℚ))
    (query : String) (max_results : Nat) (time_limit : Option Nat) :
    Except HttpError (List Candidate) :=
  match recommend_assessments_try search query max_results time_limit with
  | Except.ok v => Except.ok v
  | Except.error e =>
    Except.error
      { status_code := 500,
        detail := "Error generating recommendations: " ++ httpErrorText e }

namespace SimpleAssessmentRecommender

/-- `SimpleAssessmentRecommender.parse_query` (simple_recommender.py lines
57-103); it receives the already lower-cased query. -/
def parse_query (query : List Char) : SimpleRequirements :=
  let time_limit := extractTimeLimit simple_time_patterns query
  let skills := skill_keywords.filter (fun s => containsSub s.toList query)
  let test_types := buildTestTypes
    (anyWord ["personality", "behavior", "cultural"] query)
    (anyWord ["cognitive", "reasoning", "aptitude"] query)
    (anyWord ["technical", "skill", "programming", "knowledge"] query)
    (["java", "python", "sql", "javascript"].any (· ∈ skills))
    (["communication", "leadership", "collaboration"].any (· ∈ skills))
  { skills := skills, test_types := test_types, time_limit := time_limit }

/-- The concatenated lower-cased text of an assessment
(`f"{name} {description} {' '.join(skills)}".lower()`). -/
def assessmentText (a : Assessment) : List Char :=
  (a.name.toList ++ [' '] ++ a.description.toList ++ [' ']
      ++ List.intercalate [' '] (a.skills.map String.toList)).map Char.toLower

/-- The keyword-overlap part of the simple score: one point per query word
longer than 3 characters occurring in the assessment text, counted with the
multiplicity of the word in the query. -/
def keywordScore (q : List Char) (text : List Char) : Nat :=
  ((pyWords q).filter (fun w => 3 < w.length && containsSub w text)).length

/-- The whole score of one assessment (simple_recommender.py lines 26-41):
keyword overlap, plus 3 per requirement skill present in the record's skill
list, plus 2 on a test-type match. -/
def scoreOf (requirements : SimpleRequirements) (a : Assessment)
    (q : List Char) : Nat :=
  keywordScore q (assessmentText a)
    + 3 * (requirements.skills.filter (fun s => s ∈ a.skills)).length
    + (if requirements.test_types ≠ [] ∧
          a.test_type ∈ requirements.test_types then 2 else 0)

/-- `SimpleAssessmentRecommender.balance_recommendations` (lines 105-130). -/
def balance_recommendations (candidates : List SimpleCandidate)
    (requirements : SimpleRequirements) (top_k : Nat) : List SimpleCandidate :=
  if requirements.test_types.length ≤ 1 then candidates
  else
    let slots_per_type := top_k / requirements.test_types.length
    let balanced := perTypeSelect (fun c => c.assessment.test_type)
      candidates slots_per_type requirements.test_types
    fillLoopCounter candidates balanced ((top_k : Int) - balanced.length)

/-- The scoring loop of the simple `recommend` (lines 21-46): skip records
over the time limit, keep positively scored ones as copies carrying
`final_score`. -/
def scoredList (assessments : List Assessment)
    (requirements : SimpleRequirements) (q : List Char) (tl : Nat) :
    List SimpleCandidate :=
  assessments.filterMap (fun a =>
    if a.duration_minutes ≤ tl then
      if 0 < scoreOf requirements a q then
        some { assessment := a, final_score := scoreOf requirements a q }
      else none
    else none)

/-- `SimpleAssessmentRecommender.recommend` (lines 12-55). -/
def recommend (assessments : List Assessment) (query : String) (top_k : Nat)
    (time_limit : Option Nat) : List SimpleCandidate :=
  let q := query.toList.map Char.toLower
  let requirements := parse_query q
  let tl := time_limit.getD requirements.time_limit
  let scored := scoredList assessments requirements q tl
  let sorted := pySortByDesc (fun c => c.final_score) scored
  let balanced :=
    if 1 < requirements.test_types.length then
      balance_recommendations sorted requirements top_k
    else sorted
  balanced.take top_k

end SimpleAssessmentRecommender

/-- Modelled from the spec (section 4.3): the skill-boost factor alone —
`1 + 0.2 × |intersection|` when `requirements.skills` and the intersection
are non-empty, else `1`.  Defined for comparison with `calculate_boost`. -/
def skillBoost (a : Assessment) (requirements : Requirements) : ℚ :=
  if requirements.skills ≠ [] ∧
      a.skills.dedup.filter (fun s => s ∈ requirements.skills) ≠ [] then
    1 + (1 / 5) * ((a.skills.dedup.filter
      (fun s => s ∈ requirements.skills)).length : ℚ)
  else 1

/-- Modelled from the spec (section 4.3): the test-type boost factor alone —
`1.3` when `requirements.test_types` is non-empty and contains the
candidate's type, else `1`. -/
def typeBoost (a : Assessment) (requirements : Requirements) : ℚ :=
  if requirements.test_types ≠ [] ∧
      a.test_type ∈ requirements.test_types then 13 / 10
  else 1

/-- A candidate whose url duplicates `cexDup2` but whose score differs, for
probing the fill-pass membership test. -/
def cexDup1 : Candidate :=
  Candidate.mk (Assessment.mk "a" "https://shl.example/dup" "" "K" 10 []) 1 5

/-- A candidate sharing `cexDup1`'s url with a different final score. -/
def cexDup2 : Candidate :=
  Candidate.mk (Assessment.mk "a" "https://shl.example/dup" "" "K" 10 []) 1 4

/-- A requirements object with two test types, for exercising the balancer. -/
def cexReq : Requirements :=
  { skills := [], test_types := ["K", "P"], time_limit := 120,
    experience_level := "mid" }

/-- A 20-minute personality assessment for the balancing witness. -/
def w4P1 : Assessment := Assessment.mk "p one" "https://shl.example/p1" "" "P" 20 []

/-- A 25-minute personality assessment for the balancing witness. -/
def w4P2 : Assessment := Assessment.mk "p two" "https://shl.example/p2" "" "P" 25 []

/-- A 20-minute cognitive assessment for the balancing witness. -/
def w4C1 : Assessment := Assessment.mk "c one" "https://shl.example/c1" "" "C" 20 []

/-- A 25-minute cognitive assessment for the balancing witness. -/
def w4C2 : Assessment := Assessment.mk "c two" "https://shl.example/c2" "" "C" 25 []

/-- A concrete four-record search result for the balancing witness. -/
def w4search : String → List (Assessment × ℚ) :=
  fun _ => [(w4P1, 1), (w4C1, 1), (w4P2, 1), (w4C2, 1)]

/-! ## Witness fixtures: a small concrete catalog -/

/-- A cognitive assessment of 30 minutes, used as concrete witness data. -/
def wCog : Assessment :=
  { name := "numerical reasoning", url := "https://shl.example/a",
    description := "timed numerical test", test_type := "C",
    duration_minutes := 30, skills := ["analytical"] }

/-- A long knowledge assessment of 90 minutes, used as concrete witness
data. -/
def wKnow : Assessment :=
  { name := "java platform", url := "https://shl.example/b",
    description := "coding depth", test_type := "K",
    duration_minutes := 90, skills := ["java"] }

/-- A concrete search result used by witnesses. -/
def wSearch : String → List (Assessment × ℚ) :=
  fun _ => [(wCog, 9 / 10), (wKnow, 1 / 2)]

/-- A concrete state used by witnesses. -/
def w9st : EngineState := { assessments := [wCog, wKnow] }

/-- A concrete state-reading search function used by witnesses. -/
def w9search : EngineState → String → List (Assessment × ℚ) :=
  fun st _ => st.assessments.map (fun a => (a, 1))

/-! ## Lemmas about the stable descending sort -/

theorem insertDescBy_perm {α β : Type} [LinearOrder β] (key : α → β) (c : α)
    (l : List α) : (insertDescBy key c l).Perm (c :: l) := by
  induction l with
  | nil => simp [insertDescBy]
  | cons d rest ih =>
    simp only [insertDescBy]
    split
    · exact List.Perm.refl _
    · exact (List.Perm.cons d ih).trans (List.Perm.swap c d rest)

theorem insertDescBy_sorted {α β : Type} [LinearOrder β] (key : α → β) (c : α)
    {l : List α} (h : List.Sorted (fun a b => key b ≤ key a) l) :
    List.Sorted (fun a b => key b ≤ key a) (insertDescBy key c l) := by
  induction l with
  | nil => simp [insertDescBy]
  | cons d rest ih =>
    rw [List.sorted_cons] at h
    simp only [insertDescBy]
    split
    · rename_i hlt
      rw [List.sorted_cons]
      refine ⟨?_, List.sorted_cons.mpr h⟩
      intro b hb
      rcases List.mem_cons.mp hb with hbd | hbr
      · exact hbd ▸ le_of_lt hlt
      · exact le_trans (h.1 b hbr) (le_of_lt hlt)
    · rename_i hge
      rw [List.sorted_cons]
      refine ⟨?_, ih h.2⟩
      intro b hb
      rcases List.mem_cons.mp ((insertDescBy_perm key c rest).mem_iff.mp hb)
        with hbc | hbr
      · exact hbc ▸ le_of_not_lt hge
      · exact h.1 b hbr

theorem insertDescBy_filter_ne {α β : Type} [LinearOrder β] (key : α → β)
    {c : α} {s : β} (hne : key c ≠ s) (l : List α) :
    (insertDescBy key c l).filter (fun x => decide (key x = s))
      = l.filter (fun x => decide (key x = s)) := by
  induction l with
  | nil => simp [insertDescBy, hne]
  | cons d rest ih =>
    simp only [insertDescBy]
    split
    · simp [List.filter_cons, hne]
    · simp only [List.filter_cons]
      split <;> simp [ih]

theorem insertDescBy_filter_eq {α β : Type} [LinearOrder β] (key : α → β)
    {c : α} {s : β} (heq : key c = s) {l : List α}
    (hs : List.Sorted (fun a b => key b ≤ key a) l) :
    (insertDescBy key c l).filter (fun x => decide (key x = s))
      = l.filter (fun x => decide (key x = s)) ++ [c] := by
  induction l with
  | nil => simp [insertDescBy, heq]
  | cons d rest ih =>
    rw [List.sorted_cons] at hs
    simp only [insertDescBy]
    split
    · rename_i hlt
      have hnil : (d :: rest).filter (fun x => decide (key x = s)) = [] := by
        rw [List.filter_eq_nil_iff]
        intro x hx
        have hxle : key x ≤ key d := by
          rcases List.mem_cons.mp hx with hxd | hxr
          · exact hxd ▸ le_refl _
          · exact hs.1 x hxr
        have : key x < key c := lt_of_le_of_lt hxle hlt
        simp [heq ▸ ne_of_lt this]
      have hc : (c :: d :: rest).filter (fun x => decide (key x = s))
          = c :: (d :: rest).filter (fun x => decide (key x = s)) := by
        simp [List.filter_cons, heq]
      rw [hc, hnil]
      rfl
    · simp only [List.filter_cons]
      split
      · simp [ih hs.2]
      · simp [ih hs.2]

theorem pySortAux_perm {α β : Type} [LinearOrder β] (key : α → β) :
    ∀ (l acc : List α),
      (l.foldl (fun acc c => insertDescBy key c acc) acc).Perm (acc ++ l) := by
  intro l
  induction l with
  | nil => intro acc; simp
  | cons c rest ih =>
    intro acc
    have h1 := ih (insertDescBy key c acc)
    have h2 : (insertDescBy key c acc ++ rest).Perm (acc ++ c :: rest) := by
      refine List.Perm.trans ((insertDescBy_perm key c acc).append_right rest) ?_
      exact List.perm_middle.symm
    exact List.Perm.trans h1 h2

theorem pySortAux_sorted {α β : Type} [LinearOrder β] (key : α → β) :
    ∀ (l acc : List α), List.Sorted (fun a b => key b ≤ key a) acc →
      List.Sorted (fun a b => key b ≤ key a)
        (l.foldl (fun acc c => insertDescBy key c acc) acc) := by
  intro l
  induction l with
  | nil => intro acc h; exact h
  | cons c rest ih =>
    intro acc h
    exact ih (insertDescBy key c acc) (insertDescBy_sorted key c h)

theorem pySortAux_filter {α β : Type} [LinearOrder β] (key : α → β) (s : β) :
    ∀ (l acc : List α), List.Sorted (fun a b => key b ≤ key a) acc →
      (l.foldl (fun acc c => insertDescBy key c acc) acc).filter
          (fun x => decide (key x = s))
        = acc.filter (fun x => decide (key x = s))
            ++ l.filter (fun x => decide (key x = s)) := by
  intro l
  induction l with
  | nil => intro acc _; simp
  | cons c rest ih =>
    intro acc h
    have hstep := ih (insertDescBy key c acc) (insertDescBy_sorted key c h)
    rw [List.foldl_cons, hstep]
    by_cases hc : key c = s
    · rw [insertDescBy_filter_eq key hc h]
      simp [List.filter_cons, hc]
    · rw [insertDescBy_filter_ne key hc]
      simp [List.filter_cons, hc]

theorem pySortByDesc_perm {α β : Type} [LinearOrder β] (key : α → β)
    (l : List α) : (pySortByDesc key l).Perm l := by
  have h := pySortAux_perm key l []
  simpa [pySortByDesc] using h

theorem pySortByDesc_sorted {α β : Type} [LinearOrder β] (key : α → β)
    (l : List α) :
    List.Sorted (fun a b => key b ≤ key a) (pySortByDesc key l) :=
  pySortAux_sorted key l [] (List.sorted_nil)

theorem pySortByDesc_filter {α β : Type} [LinearOrder β] (key : α → β) (s : β)
    (l : List α) :
    (pySortByDesc key l).filter (fun x => decide (key x = s))
      = l.filter (fun x => decide (key x = s)) := by
  have h := pySortAux_filter key s l [] (List.sorted_nil)
  simpa [pySortByDesc] using h

/-! ## Membership and shape lemmas for the balancing passes -/

theorem mem_perTypeSelect {α : Type} (key : α → String) (l : List α)
    (slots : Nat) : ∀ (ts : List String) (x : α),
      x ∈ perTypeSelect key l slots ts → x ∈ l := by
  intro ts
  induction ts with
  | nil => intro x hx; simp [perTypeSelect] at hx
  | cons t rest ih =>
    intro x hx
    rcases List.mem_append.mp hx with hx1 | hx2
    · exact List.mem_of_mem_filter (List.mem_of_mem_take hx1)
    · exact ih x hx2

theorem fillLoop_eq_append {α : Type} [DecidableEq α] (k : Nat) :
    ∀ (l b : List α), ∃ e, fillLoop k l b = b ++ e := by
  intro l
  induction l with
  | nil => intro b; exact ⟨[], by simp [fillLoop]⟩
  | cons c rest ih =>
    intro b
    simp only [fillLoop]
    split
    · exact ih b
    · split
      · exact ⟨[c], rfl⟩
      · obtain ⟨e, he⟩ := ih (b ++ [c])
        exact ⟨c :: e, by rw [he, List.append_assoc]; rfl⟩

theorem mem_fillLoop {α : Type} [DecidableEq α] (k : Nat) :
    ∀ (l b : List α) (x : α), x ∈ fillLoop k l b → x ∈ b ∨ x ∈ l := by
  intro l
  induction l with
  | nil => intro b x hx; exact Or.inl (by simpa [fillLoop] using hx)
  | cons c rest ih =>
    intro b x hx
    simp only [fillLoop] at hx
    split at hx
    · rcases ih b x hx with h | h
      · exact Or.inl h
      · exact Or.inr (List.mem_cons_of_mem c h)
    · split at hx
      · rcases List.mem_append.mp hx with h | h
        · exact Or.inl h
        · exact Or.inr (List.mem_cons.mpr (Or.inl (List.mem_singleton.mp h)))
      · rcases ih (b ++ [c]) x hx with h | h
        · rcases List.mem_append.mp h with h1 | h1
          · exact Or.inl h1
          · exact Or.inr (List.mem_cons.mpr (Or.inl (List.mem_singleton.mp h1)))
        · exact Or.inr (List.mem_cons_of_mem c h)

theorem perTypeSelect_length_le {α : Type} (key : α → String) (l : List α)
    (slots : Nat) : ∀ ts : List String,
      (perTypeSelect key l slots ts).length ≤ slots * ts.length := by
  intro ts
  induction ts with
  | nil => simp [perTypeSelect]
  | cons t rest ih =>
    simp only [perTypeSelect, List.length_append, List.length_cons]
    have h1 : ((l.filter (fun c => key c == t)).take slots).length ≤ slots := by
      rw [List.length_take]
      exact min_le_left _ _
    have hm : slots * (rest.length + 1) = slots * rest.length + slots := by ring
    omega

theorem perTypeSelect_countP_ge {α : Type} (key : α → String) (l : List α)
    (slots : Nat) : ∀ (ts : List String) (t : String), t ∈ ts →
      min slots ((l.filter (fun c => key c == t)).length)
        ≤ (perTypeSelect key l slots ts).countP (fun c => key c == t) := by
  intro ts
  induction ts with
  | nil => intro t ht; exact absurd ht (List.not_mem_nil t)
  | cons t0 rest ih =>
    intro t ht
    simp only [perTypeSelect, List.countP_append]
    rcases List.mem_cons.mp ht with h0 | hr
    · subst h0
      have hall : ∀ x ∈ (l.filter (fun c => key c == t)).take slots,
          (fun c => key c == t) x = true := fun x hx =>
        (List.mem_filter.mp (List.mem_of_mem_take hx)).2
      have hcount := List.countP_eq_length.mpr hall
      have hlen : ((l.filter (fun c => key c == t)).take slots).length
          = min slots ((l.filter (fun c => key c == t)).length) :=
        List.length_take _ _
      omega
    · have := ih t hr
      omega

theorem perTypeSelect_count_eq_zero {α : Type} [DecidableEq α] (key : α → String)
    (l : List α) (slots : Nat) : ∀ (ts : List String) (v : α), key v ∉ ts →
      (perTypeSelect key l slots ts).count v = 0 := by
  intro ts
  induction ts with
  | nil => intro v _; simp [perTypeSelect]
  | cons t rest ih =>
    intro v hv
    simp only [perTypeSelect, List.count_append]
    have h1 : (((l.filter (fun c => key c == t)).take slots).count v) = 0 := by
      rw [List.count_eq_zero]
      intro hmem
      have := (List.mem_filter.mp (List.mem_of_mem_take hmem)).2
      exact hv (List.mem_cons.mpr (Or.inl (by simpa using this)))
    have h2 := ih v (fun h => hv (List.mem_cons_of_mem t h))
    omega

theorem perTypeSelect_count_le {α : Type} [DecidableEq α] (key : α → String)
    (l : List α) (slots : Nat) : ∀ ts : List String, ts.Nodup → ∀ v : α,
      (perTypeSelect key l slots ts).count v ≤ l.count v := by
  intro ts
  induction ts with
  | nil => intro _ v; simp [perTypeSelect]
  | cons t rest ih =>
    intro hnd v
    have hnd2 := List.nodup_cons.mp hnd
    simp only [perTypeSelect, List.count_append]
    by_cases hv : key v = t
    · have h2 : (perTypeSelect key l slots rest).count v = 0 :=
        perTypeSelect_count_eq_zero key l slots rest v (hv ▸ hnd2.1)
      have h1 : (((l.filter (fun c => key c == t)).take slots).count v)
          ≤ l.count v :=
        ((List.take_sublist _ _).trans (List.filter_sublist l)).count_le v
      omega
    · have h1 : (((l.filter (fun c => key c == t)).take slots).count v) = 0 := by
        rw [List.count_eq_zero]
        intro hmem
        have := (List.mem_filter.mp (List.mem_of_mem_take hmem)).2
        exact hv (by simpa using this)
      have h2 := ih hnd2.2 v
      omega

theorem perTypeSelect_subperm {α : Type} [DecidableEq α] (key : α → String)
    (l : List α) (slots : Nat) (ts : List String) (h : ts.Nodup) :
    (perTypeSelect key l slots ts).Subperm l :=
  List.subperm_ext_iff.mpr fun x _ => perTypeSelect_count_le key l slots ts h x

theorem fillLoop_length_le {α : Type} [DecidableEq α] (k : Nat) :
    ∀ (l b : List α), b.length < k → (fillLoop k l b).length ≤ k := by
  intro l
  induction l with
  | nil => intro b hb; simpa [fillLoop] using Nat.le_of_lt hb
  | cons c rest ih =>
    intro b hb
    simp only [fillLoop]
    split
    · exact ih b hb
    · split
      · simpa using hb
      · rename_i hgt
        exact ih (b ++ [c]) (by simp; omega)

theorem fillLoop_subperm {α : Type} [DecidableEq α] (k : Nat) :
    ∀ (l b L : List α), b.Subperm L → (∀ x ∈ l, x ∈ L) →
      (fillLoop k l b).Subperm L := by
  intro l
  induction l with
  | nil => intro b L hb _; simpa [fillLoop] using hb
  | cons c rest ih =>
    intro b L hb hl
    simp only [fillLoop]
    split
    · exact ih b L hb fun x hx => hl x (List.mem_cons_of_mem c hx)
    · rename_i hcb
      have hcL : c ∈ L := hl c (List.mem_cons_self c rest)
      have hb2 : (b ++ [c]).Subperm L := by
        rw [List.subperm_ext_iff]
        intro x _
        by_cases hxc : x = c
        · subst hxc
          have h0 : b.count x = 0 := List.count_eq_zero.mpr hcb
          have h1 : 1 ≤ L.count x := List.one_le_count_iff.mpr hcL
          have hc1 : List.count x [x] = 1 := by simp
          rw [List.count_append, h0, hc1]
          omega
        · have h1 : List.count x [c] = 0 := by
            rw [List.count_eq_zero]
            simp [hxc]
          by_cases hxb : x ∈ b
          · have := List.subperm_ext_iff.mp hb x hxb
            simp [List.count_append, h1]
            omega
          · have h0 : b.count x = 0 := List.count_eq_zero.mpr hxb
            simp [List.count_append, h0, h1]
      split
      · exact hb2
      · exact ih (b ++ [c]) L hb2 fun x hx => hl x (List.mem_cons_of_mem c hx)

theorem fillLoopCounter_length_le {α : Type} [DecidableEq α] :
    ∀ (l b : List α) (r : Int),
      (fillLoopCounter l b r).length ≤ b.length + r.toNat := by
  intro l
  induction l with
  | nil => intro b r; simp [fillLoopCounter]
  | cons c rest ih =>
    intro b r
    simp only [fillLoopCounter]
    split
    · rename_i hcond
      have := ih (b ++ [c]) (r - 1)
      simp only [List.length_append, List.length_cons, List.length_nil] at this
      have hr : 0 < r := hcond.2
      omega
    · have := ih b r
      omega

theorem fillLoopCounter_subperm {α : Type} [DecidableEq α] :
    ∀ (l b L : List α) (r : Int), b.Subperm L → (∀ x ∈ l, x ∈ L) →
      (fillLoopCounter l b r).Subperm L := by
  intro l
  induction l with
  | nil => intro b L r hb _; simpa [fillLoopCounter] using hb
  | cons c rest ih =>
    intro b L r hb hl
    simp only [fillLoopCounter]
    split
    · rename_i hcond
      have hcL : c ∈ L := hl c (List.mem_cons_self c rest)
      have hb2 : (b ++ [c]).Subperm L := by
        rw [List.subperm_ext_iff]
        intro x _
        by_cases hxc : x = c
        · subst hxc
          have h0 : b.count x = 0 := List.count_eq_zero.mpr hcond.1
          have h1 : 1 ≤ L.count x := List.one_le_count_iff.mpr hcL
          have hc1 : List.count x [x] = 1 := by simp
          rw [List.count_append, h0, hc1]
          omega
        · have h1 : List.count x [c] = 0 := by
            rw [List.count_eq_zero]
            simp [hxc]
          by_cases hxb : x ∈ b
          · have := List.subperm_ext_iff.mp hb x hxb
            simp [List.count_append, h1]
            omega
          · have h0 : b.count x = 0 := List.count_eq_zero.mpr hxb
            simp [List.count_append, h0, h1]
      exact ih (b ++ [c]) L (r - 1) hb2
        fun x hx => hl x (List.mem_cons_of_mem c hx)
    · exact ih b L r hb fun x hx => hl x (List.mem_cons_of_mem c hx)

theorem fillLoopCounter_eq_append {α : Type} [DecidableEq α] :
    ∀ (l b : List α) (r : Int), ∃ e, fillLoopCounter l b r = b ++ e := by
  intro l
  induction l with
  | nil => intro b r; exact ⟨[], by simp [fillLoopCounter]⟩
  | cons c rest ih =>
    intro b r
    simp only [fillLoopCounter]
    split
    · obtain ⟨e, he⟩ := ih (b ++ [c]) (r - 1)
      exact ⟨c :: e, by rw [he, List.append_assoc]; rfl⟩
    · exact ih b r

theorem mem_fillLoopCounter {α : Type} [DecidableEq α] :
    ∀ (l b : List α) (r : Int) (x : α),
      x ∈ fillLoopCounter l b r → x ∈ b ∨ x ∈ l := by
  intro l
  induction l with
  | nil => intro b r x hx; exact Or.inl (by simpa [fillLoopCounter] using hx)
  | cons c rest ih =>
    intro b r x hx
    simp only [fillLoopCounter] at hx
    split at hx
    · rcases ih (b ++ [c]) (r - 1) x hx with h | h
      · rcases List.mem_append.mp h with h1 | h1
        · exact Or.inl h1
        · exact Or.inr (List.mem_cons.mpr (Or.inl (List.mem_singleton.mp h1)))
      · exact Or.inr (List.mem_cons_of_mem c h)
    · rcases ih b r x hx with h | h
      · exact Or.inl h
      · exact Or.inr (List.mem_cons_of_mem c h)

/-! ## Pipeline-level lemmas for the vector engine -/

namespace AssessmentRecommender

theorem mem_scoreFilter {requirements : Requirements} {tl : Nat}
    {ranked : List (Assessment × ℚ)} {c : Candidate}
    (h : c ∈ scoreFilter requirements tl ranked) :
    c.assessment.duration_minutes ≤ tl ∧ ∃ p ∈ ranked,
      c = { assessment := p.1, similarity_score := p.2,
            final_score := p.2 * calculate_boost p.1 requirements } := by
  unfold scoreFilter at h
  rw [List.mem_filterMap] at h
  obtain ⟨p, hp, he⟩ := h
  by_cases hd : p.1.duration_minutes ≤ tl
  · rw [if_pos hd] at he
    have hc := Option.some.inj he
    subst hc
    exact ⟨hd, p, hp, rfl⟩
  · rw [if_neg hd] at he
    exact absurd he (by simp)

theorem scoreFilter_length (requirements : Requirements) (tl : Nat) :
    ∀ ranked : List (Assessment × ℚ),
      (scoreFilter requirements tl ranked).length
        = (ranked.filter (fun p => decide (p.1.duration_minutes ≤ tl))).length := by
  intro ranked
  induction ranked with
  | nil => rfl
  | cons p rest ih =>
    simp only [scoreFilter, List.filterMap_cons, List.filter_cons] at ih ⊢
    by_cases hd : p.1.duration_minutes ≤ tl
    · rw [if_pos hd]
      simp [hd, ih]
    · rw [if_neg hd]
      simp [hd, ih]

theorem scoreFilter_countP (requirements : Requirements) (tl : Nat)
    (t : String) : ∀ ranked : List (Assessment × ℚ),
      (scoreFilter requirements tl ranked).countP
          (fun c => c.assessment.test_type == t)
        = ranked.countP
            (fun p => decide (p.1.duration_minutes ≤ tl) && (p.1.test_type == t)) := by
  intro ranked
  induction ranked with
  | nil => rfl
  | cons p rest ih =>
    simp only [scoreFilter, List.filterMap_cons] at ih ⊢
    by_cases hd : p.1.duration_minutes ≤ tl
    · rw [if_pos hd]
      simp [List.countP_cons, hd, ih]
    · rw [if_neg hd]
      simp [List.countP_cons, hd, ih]

theorem mem_balance {cands : List Candidate} {req : Requirements} {k : Nat}
    {x : Candidate} (h : x ∈ balance_recommendations cands req k) :
    x ∈ cands := by
  simp only [balance_recommendations] at h
  split at h
  · split at h
    · rcases mem_fillLoop k cands _ x h with hb | hl
      · exact mem_perTypeSelect _ _ _ _ x hb
      · exact hl
    · exact mem_perTypeSelect _ _ _ _ x h
  · exact h

theorem balance_length_le_topk {cands : List Candidate} {req : Requirements}
    {top_k : Nat} (h2 : 1 < req.test_types.length) :
    (balance_recommendations cands req top_k).length ≤ top_k := by
  simp only [balance_recommendations, if_pos h2]
  have hb : (perTypeSelect (fun c => c.assessment.test_type) cands
      (top_k / req.test_types.length) req.test_types).length ≤ top_k :=
    le_trans (perTypeSelect_length_le _ _ _ _) (Nat.div_mul_le_self top_k _)
  split
  · rename_i hlt
    exact fillLoop_length_le top_k cands _ hlt
  · exact hb

theorem balance_subperm {cands : List Candidate} {req : Requirements}
    {top_k : Nat} (h : req.test_types.Nodup) :
    (balance_recommendations cands req top_k).Subperm cands := by
  simp only [balance_recommendations]
  split
  · split
    · exact fillLoop_subperm top_k cands _ cands
        (perTypeSelect_subperm _ _ _ _ h) (fun x hx => hx)
    · exact perTypeSelect_subperm _ _ _ _ h
  · exact List.Subperm.refl _

theorem balance_countP_ge {cands : List Candidate} {req : Requirements}
    {top_k : Nat} {t : String} (h2 : 1 < req.test_types.length)
    (ht : t ∈ req.test_types)
    (hcnt : top_k / req.test_types.length
      ≤ (cands.filter (fun c => c.assessment.test_type == t)).length) :
    top_k / req.test_types.length
      ≤ (balance_recommendations cands req top_k).countP
          (fun c => c.assessment.test_type == t) := by
  simp only [balance_recommendations, if_pos h2]
  have hper : top_k / req.test_types.length
      ≤ (perTypeSelect (fun c => c.assessment.test_type) cands
          (top_k / req.test_types.length) req.test_types).countP
          (fun c => c.assessment.test_type == t) := by
    have h0 := perTypeSelect_countP_ge (fun c => c.assessment.test_type)
      cands (top_k / req.test_types.length) req.test_types t ht
    rw [min_eq_left hcnt] at h0
    exact h0
  split
  · obtain ⟨e, he⟩ := fillLoop_eq_append top_k cands
      (perTypeSelect (fun c => c.assessment.test_type) cands
        (top_k / req.test_types.length) req.test_types)
    rw [he, List.countP_append]
    omega
  · exact hper

theorem mem_recommend {search : String → List (Assessment × ℚ)}
    {query : String} {top_k : Nat} {tlOpt : Option Nat} {c : Candidate}
    (h : c ∈ recommend search query top_k tlOpt) :
    c ∈ scoreFilter (parse_query query)
      (tlOpt.getD (parse_query query).time_limit) (search query) := by
  simp only [recommend] at h
  have h1 := List.mem_of_mem_take h
  have h2 := mem_balance h1
  exact ((pySortByDesc_perm (fun c => c.final_score) _).mem_iff).mp h2

end AssessmentRecommender

/-! ## Pipeline-level lemmas for the simple backend -/

namespace SimpleAssessmentRecommender

theorem mem_scoredList {assessments : List Assessment}
    {requirements : SimpleRequirements} {q : List Char} {tl : Nat}
    {sc : SimpleCandidate} (h : sc ∈ scoredList assessments requirements q tl) :
    sc.assessment.duration_minutes ≤ tl ∧ sc.assessment ∈ assessments ∧
      sc.final_score = scoreOf requirements sc.assessment q ∧
      0 < sc.final_score := by
  unfold scoredList at h
  rw [List.mem_filterMap] at h
  obtain ⟨a, ha, he⟩ := h
  by_cases hd : a.duration_minutes ≤ tl
  · rw [if_pos hd] at he
    by_cases hs : 0 < scoreOf requirements a q
    · rw [if_pos hs] at he
      have hc := Option.some.inj he
      subst hc
      exact ⟨hd, ha, rfl, hs⟩
    · rw [if_neg hs] at he
      exact absurd he (by simp)
  · rw [if_neg hd] at he
    exact absurd he (by simp)

theorem scoredList_length_le (assessments : List Assessment)
    (requirements : SimpleRequirements) (q : List Char) (tl : Nat) :
    (scoredList assessments requirements q tl).length
      ≤ (assessments.filter (fun a => decide (a.duration_minutes ≤ tl))).length := by
  induction assessments with
  | nil => simp [scoredList]
  | cons a rest ih =>
    simp only [scoredList, List.filterMap_cons, List.filter_cons] at ih ⊢
    by_cases hd : a.duration_minutes ≤ tl
    · rw [if_pos hd]
      by_cases hs : 0 < scoreOf requirements a q
      · rw [if_pos hs]
        simp only [hd, List.length_cons]
        simp
        omega
      · rw [if_neg hs]
        simp only [hd]
        simp
        omega
    · rw [if_neg hd]
      simp [hd, ih]

theorem mem_simple_balance {cands : List SimpleCandidate}
    {req : SimpleRequirements} {k : Nat} {x : SimpleCandidate}
    (h : x ∈ balance_recommendations cands req k) : x ∈ cands := by
  simp only [balance_recommendations] at h
  split at h
  · exact h
  · rcases mem_fillLoopCounter cands _ _ x h with hb | hl
    · exact mem_perTypeSelect _ _ _ _ x hb
    · exact hl

theorem mem_simple_recommend {assessments : List Assessment} {query : String}
    {top_k : Nat} {tlOpt : Option Nat} {sc : SimpleCandidate}
    (h : sc ∈ recommend assessments query top_k tlOpt) :
    sc ∈ scoredList assessments (parse_query (query.toList.map Char.toLower))
      (query.toList.map Char.toLower)
      (tlOpt.getD (parse_query (query.toList.map Char.toLower)).time_limit) := by
  simp only [recommend] at h
  have h1 := List.mem_of_mem_take h
  have h2 : sc ∈ pySortByDesc (fun c => c.final_score)
      (scoredList assessments (parse_query (query.toList.map Char.toLower))
        (query.toList.map Char.toLower)
        (tlOpt.getD (parse_query (query.toList.map Char.toLower)).time_limit)) := by
    split at h1
    · exact mem_simple_balance h1
    · exact h1
  exact ((pySortByDesc_perm (fun c => c.final_score) _).mem_iff).mp h2

end SimpleAssessmentRecommender
/-! ## Claim C1 -/

/-- C1: for every query and every candidate returned by
`recommend(query, top_k, time_limit?)` — of either backend — the candidate's
`duration_minutes` is at most the effective time limit (the explicit
`time_limit` argument if provided, else the limit parsed from the query,
default 120); over-limit candidates are excluded before scoring. -/
theorem claim_C1 :
    (∀ (search : String → List (Assessment × ℚ)) (query : String)
        (top_k : Nat) (tlOpt : Option Nat) (c : Candidate),
        c ∈ AssessmentRecommender.recommend search query top_k tlOpt →
        c.assessment.duration_minutes
          ≤ tlOpt.getD (AssessmentRecommender.parse_query query).time_limit) ∧
    (∀ (assessments : List Assessment) (query : String) (top_k : Nat)
        (tlOpt : Option Nat) (sc : SimpleCandidate),
        sc ∈ SimpleAssessmentRecommender.recommend assessments query top_k tlOpt →
        sc.assessment.duration_minutes
          ≤ tlOpt.getD (SimpleAssessmentRecommender.parse_query
              (query.toList.map Char.toLower)).time_limit) := by
  constructor
  · intro search query top_k tlOpt c h
    exact (AssessmentRecommender.mem_scoreFilter
      (AssessmentRecommender.mem_recommend h)).1
  · intro assessments query top_k tlOpt sc h
    exact (SimpleAssessmentRecommender.mem_scoredList
      (SimpleAssessmentRecommender.mem_simple_recommend h)).1

unseal Rat.mul Rat.inv Rat.add Rat.sub in
/-- Concrete instance of C1: on the query "40 minutes aptitude" the engine
returns the 30-minute assessment (and the 90-minute one is excluded), and the
theorem bounds its duration by the parsed limit 40. -/
theorem claim_C1_witness :
    (Candidate.mk wCog (9 / 10) (117 / 100)
        ∈ AssessmentRecommender.recommend wSearch "40 minutes aptitude" 5 none
      ∧ wCog.duration_minutes
          ≤ (Option.none).getD
            (AssessmentRecommender.parse_query "40 minutes aptitude").time_limit) ∧
    (SimpleCandidate.mk wCog 3
        ∈ SimpleAssessmentRecommender.recommend [wCog, wKnow]
            "reasoning 40 minutes" 5 none
      ∧ wCog.duration_minutes
          ≤ (Option.none).getD
            (SimpleAssessmentRecommender.parse_query
              ("reasoning 40 minutes".toList.map Char.toLower)).time_limit) := by
  have h1 : Candidate.mk wCog (9 / 10) (117 / 100)
      ∈ AssessmentRecommender.recommend wSearch "40 minutes aptitude" 5 none := by
    decide
  have h2 : SimpleCandidate.mk wCog 3
      ∈ SimpleAssessmentRecommender.recommend [wCog, wKnow]
          "reasoning 40 minutes" 5 none := by
    decide
  exact ⟨⟨h1, claim_C1.1 wSearch "40 minutes aptitude" 5 none _ h1⟩,
         ⟨h2, claim_C1.2 [wCog, wKnow] "reasoning 40 minutes" 5 none _ h2⟩⟩

/-! ## Claim C7 -/

/-- C7: the pipeline's sort of scored candidates by descending `final_score`
is stable — it is a permutation, it is sorted descending, and the candidates
of any given score keep exactly the relative order the similarity stage
produced them in. -/
theorem claim_C7 (l : List Candidate) (s : ℚ) :
    (pySortByDesc (fun c => c.final_score) l).Perm l ∧
    List.Sorted (fun a b => b.final_score ≤ a.final_score)
      (pySortByDesc (fun c => c.final_score) l) ∧
    (pySortByDesc (fun c => c.final_score) l).filter
        (fun c => decide (c.final_score = s))
      = l.filter (fun c => decide (c.final_score = s)) :=
  ⟨pySortByDesc_perm (fun c => c.final_score) l,
   pySortByDesc_sorted (fun c => c.final_score) l,
   pySortByDesc_filter (fun c => c.final_score) s l⟩

/-! ## Claim C9 -/

/-- C9: `recommend` leaves the loaded catalog unchanged — the state returned
by the state-passing translation is the input state, entry by entry — and,
whenever the search contract returns catalog records, every returned
candidate carries a copy of a catalog record (scores live only on the
`Candidate` copies, which do not alias the store). -/
theorem claim_C9 (search : EngineState → String → List (Assessment × ℚ))
    (st : EngineState) (query : String) (top_k : Nat) (tlOpt : Option Nat)
    (hsearch : ∀ p ∈ search st query, p.1 ∈ st.assessments) :
    (AssessmentRecommender.recommendSt search st query top_k tlOpt).2 = st ∧
    (∀ i, (AssessmentRecommender.recommendSt search st query top_k
            tlOpt).2.assessments.get? i = st.assessments.get? i) ∧
    (AssessmentRecommender.recommendSt search st query top_k
        tlOpt).2.assessments.length = st.assessments.length ∧
    (∀ c ∈ (AssessmentRecommender.recommendSt search st query top_k tlOpt).1,
        c.assessment ∈ st.assessments) := by
  refine ⟨rfl, fun i => rfl, rfl, ?_⟩
  intro c hc
  have hc2 : c ∈ AssessmentRecommender.recommend (search st) query top_k
      tlOpt := hc
  obtain ⟨-, p, hp, hcp⟩ := AssessmentRecommender.mem_scoreFilter
    (AssessmentRecommender.mem_recommend hc2)
  rw [hcp]
  exact hsearch p hp

/-- Concrete instance of C9: on the two-record catalog the returned state is
the input state. -/
theorem claim_C9_witness :
    (AssessmentRecommender.recommendSt w9search w9st "aptitude" 5 none).2
        = w9st ∧
    (∀ c ∈ (AssessmentRecommender.recommendSt w9search w9st "aptitude"
        5 none).1, c.assessment ∈ w9st.assessments) := by
  have h := claim_C9 w9search w9st "aptitude" 5 none (by decide)
  exact ⟨h.1, h.2.2.2⟩

/-! ## Claim C10 -/

/-- C10: the `experience_level` field of a requirements object never
influences scoring or balancing — `calculate_boost` and
`balance_recommendations` give identical results on two requirements objects
agreeing on `skills`, `test_types` and `time_limit` but differing in
`experience_level`. -/
theorem claim_C10 (a : Assessment) (sk tt : List String) (tl : Nat)
    (e1 e2 : String) (cands : List Candidate) (k : Nat) :
    AssessmentRecommender.calculate_boost a
        { skills := sk, test_types := tt, time_limit := tl,
          experience_level := e1 }
      = AssessmentRecommender.calculate_boost a
        { skills := sk, test_types := tt, time_limit := tl,
          experience_level := e2 } ∧
    AssessmentRecommender.balance_recommendations cands
        { skills := sk, test_types := tt, time_limit := tl,
          experience_level := e1 } k
      = AssessmentRecommender.balance_recommendations cands
        { skills := sk, test_types := tt, time_limit := tl,
          experience_level := e2 } k :=
  ⟨rfl, rfl⟩

/-! ## Claim C2 -/

/-- C2 (amended): in the vector engine, the boost is strictly multiplicative —
`calculate_boost = skillBoost × typeBoost` with both factors at least 1, and
every scored candidate's `final_score` is `similarity_score` times that
product.  The simple lexical backend, however, is additive: its score is the
keyword overlap plus flat bonuses of 3 per matched skill and 2 for a
test-type match, not a product of boost factors. -/
theorem claim_C2 :
    (∀ (a : Assessment) (req : Requirements),
      AssessmentRecommender.calculate_boost a req
        = skillBoost a req * typeBoost a req ∧
      1 ≤ skillBoost a req ∧ 1 ≤ typeBoost a req) ∧
    (∀ (req : Requirements) (tl : Nat) (ranked : List (Assessment × ℚ))
        (c : Candidate), c ∈ AssessmentRecommender.scoreFilter req tl ranked →
      c.final_score = c.similarity_score
        * (skillBoost c.assessment req * typeBoost c.assessment req)) ∧
    (∀ (req : SimpleRequirements) (a : Assessment) (q : List Char),
      SimpleAssessmentRecommender.scoreOf req a q
        = SimpleAssessmentRecommender.keywordScore q
            (SimpleAssessmentRecommender.assessmentText a)
          + 3 * (req.skills.filter (fun s => s ∈ a.skills)).length
          + (if req.test_types ≠ [] ∧ a.test_type ∈ req.test_types then 2
             else 0)) := by
  have hboost : ∀ (a : Assessment) (req : Requirements),
      AssessmentRecommender.calculate_boost a req
        = skillBoost a req * typeBoost a req ∧
      1 ≤ skillBoost a req ∧ 1 ≤ typeBoost a req := by
    intro a req
    have hs : (1 : ℚ) ≤ skillBoost a req := by
      unfold skillBoost
      split
      · have hn : (0 : ℚ) ≤ ((a.skills.dedup.filter
            (fun s => s ∈ req.skills)).length : ℚ) := Nat.cast_nonneg _
        nlinarith
      · exact le_refl 1
    have ht : (1 : ℚ) ≤ typeBoost a req := by
      unfold typeBoost
      split
      · norm_num
      · exact le_refl 1
    refine ⟨?_, hs, ht⟩
    unfold AssessmentRecommender.calculate_boost skillBoost typeBoost
    by_cases h1 : req.skills ≠ [] ∧
        a.skills.dedup.filter (fun s => s ∈ req.skills) ≠ []
    · by_cases h2 : req.test_types ≠ [] ∧ a.test_type ∈ req.test_types
      · rw [if_pos h1, if_pos h2, if_pos h1, if_pos h2]
        try ring
      · rw [if_pos h1, if_neg h2, if_pos h1, if_neg h2]
        try ring
    · by_cases h2 : req.test_types ≠ [] ∧ a.test_type ∈ req.test_types
      · rw [if_neg h1, if_pos h2, if_neg h1, if_pos h2]
        try ring
      · rw [if_neg h1, if_neg h2, if_neg h1, if_neg h2]
        try ring
  refine ⟨hboost, ?_, fun req a q => rfl⟩
  intro req tl ranked c hc
  obtain ⟨-, p, -, hcp⟩ := AssessmentRecommender.mem_scoreFilter hc
  subst hcp
  have h := (hboost p.1 req).1
  simp [h]

unseal Rat.mul Rat.inv Rat.add Rat.sub in
/-- Counterexample to C2 as stated: the claim extends the multiplicative
contract to both retrieval backends, but the simple backend is additive.  On
the one-record catalog `[wKnow]` and the query "java", the lexical similarity
(keyword overlap) is 1 and the spec's boosts are 6/5 and 13/10, so the
claimed final score would be 39/25; the code returns 6 (= 1 + 3 + 2). -/
theorem claim_C2_counterexample :
    SimpleAssessmentRecommender.recommend [wKnow] "java" 10 none
        = [SimpleCandidate.mk wKnow 6] ∧
    SimpleAssessmentRecommender.keywordScore ("java".toList.map Char.toLower)
        (SimpleAssessmentRecommender.assessmentText wKnow) = 1 ∧
    ¬ ((SimpleAssessmentRecommender.scoreOf
          (SimpleAssessmentRecommender.parse_query
            ("java".toList.map Char.toLower))
          wKnow ("java".toList.map Char.toLower) : ℚ)
        = (1 : ℚ)
          * skillBoost wKnow
            { skills := ["java"], test_types := ["K"], time_limit := 120,
              experience_level := "mid" }
          * typeBoost wKnow
            { skills := ["java"], test_types := ["K"], time_limit := 120,
              experience_level := "mid" }) := by
  refine ⟨by decide, by decide, by decide⟩

unseal Rat.mul Rat.inv Rat.add Rat.sub in
/-- Concrete instance of C2: the candidate the engine scores for the query
"40 minutes aptitude" has `final_score = similarity × skillBoost × typeBoost`
(here 117/100 = 9/10 × 1 × 13/10). -/
theorem claim_C2_witness :
    Candidate.mk wCog (9 / 10) (117 / 100)
        ∈ AssessmentRecommender.scoreFilter
          (AssessmentRecommender.parse_query "40 minutes aptitude") 40
          (wSearch "40 minutes aptitude") ∧
    (Candidate.mk wCog (9 / 10) (117 / 100)).final_score
      = (Candidate.mk wCog (9 / 10) (117 / 100)).similarity_score
        * (skillBoost (Candidate.mk wCog (9 / 10) (117 / 100)).assessment
            (AssessmentRecommender.parse_query "40 minutes aptitude")
          * typeBoost (Candidate.mk wCog (9 / 10) (117 / 100)).assessment
            (AssessmentRecommender.parse_query "40 minutes aptitude")) := by
  have hmem : Candidate.mk wCog (9 / 10) (117 / 100)
      ∈ AssessmentRecommender.scoreFilter
        (AssessmentRecommender.parse_query "40 minutes aptitude") 40
        (wSearch "40 minutes aptitude") := by decide
  exact ⟨hmem, claim_C2.2.1 _ 40 _ _ hmem⟩

/-! ## Claim C3 -/

theorem pyStrip_of_all_space {l : List Char}
    (h : ∀ c ∈ l, pyIsSpace c = true) : pyStrip l = [] := by
  unfold pyStrip
  have h1 : l.dropWhile pyIsSpace = [] := List.dropWhile_eq_nil_iff.mpr h
  rw [h1]
  rfl

/-- C3 (amended): the empty-query rejection lives at the API boundary, not
in the engine, and even there it does not surface as `InvalidInput` — for
every empty or whitespace-only query, the endpoint's `try` block raises
HTTP 400 "Query cannot be empty" before any recommendation is computed, but
the endpoint's own catch-all exception handler intercepts it and the call
fails with HTTP 500, detail
"Error generating recommendations: 400: Query cannot be empty".  No
recommendation list is produced either way. -/
theorem claim_C3 (search : String → List (Assessment × ℚ)) (query : String)
    (max_results : Nat) (tlOpt : Option Nat)
    (h : ∀ c ∈ query.toList, pyIsSpace c = true) :
    recommend_assessments_try search query max_results tlOpt
      = Except.error
          { status_code := 400, detail := "Query cannot be empty" } ∧
    recommend_assessments search query max_results tlOpt
      = Except.error
          { status_code := 500,
            detail :=
              "Error generating recommendations: 400: Query cannot be empty" } := by
  have htry : recommend_assessments_try search query max_results tlOpt
      = Except.error
          { status_code := 400, detail := "Query cannot be empty" } := by
    unfold recommend_assessments_try
    rw [pyStrip_of_all_space h]
    simp
  refine ⟨htry, ?_⟩
  unfold recommend_assessments
  rw [htry]
  rfl

unseal Rat.mul Rat.inv Rat.add Rat.sub in
/-- Counterexample to C3 as stated: the engine-level
`AssessmentRecommender.recommend` performs no input validation — on the empty
query it returns an ordinary non-empty recommendation list instead of failing
with `InvalidInput`. -/
theorem claim_C3_counterexample :
    AssessmentRecommender.recommend (fun _ => [(wCog, 1)]) "" 5 none
        = [Candidate.mk wCog 1 1] ∧
    AssessmentRecommender.recommend (fun _ => [(wCog, 1)]) "" 5 none ≠ [] := by
  refine ⟨by decide, by decide⟩

/-- Concrete instance of C3: a whitespace-only query is rejected inside the
endpoint's `try` block with HTTP 400, and the endpoint as a whole fails with
the wrapped HTTP 500 — no recommendation list is produced. -/
theorem claim_C3_witness :
    recommend_assessments_try wSearch " " 5 none
      = Except.error
          { status_code := 400, detail := "Query cannot be empty" } ∧
    recommend_assessments wSearch " " 5 none
      = Except.error
          { status_code := 500,
            detail :=
              "Error generating recommendations: 400: Query cannot be empty" } :=
  claim_C3 wSearch " " 5 none (by decide)

/-! ## Claim C5 -/

/-- C5 (amended): the engine extracts the time limit by trying
"`<N> minutes`", "`<N> mins`", "`<N> hours`" (×60), "`less than <N>`" in that
fixed order — the first matching pattern wins, later patterns are not
consulted, and if none matches the limit is 120.  The simple backend's
pattern list stops after "`<N> hours`": a query matching only
"`less than <N>`" keeps the default 120 there. -/
theorem claim_C5 (q : List Char) (n : Nat) :
    ((searchNumWord "minute".toList q = some n →
        extractTimeLimit engine_time_patterns q = n ∧
        extractTimeLimit simple_time_patterns q = n) ∧
     (searchNumWord "minute".toList q = none →
        searchNumWord "min".toList q = some n →
        extractTimeLimit engine_time_patterns q = n ∧
        extractTimeLimit simple_time_patterns q = n) ∧
     (searchNumWord "minute".toList q = none →
        searchNumWord "min".toList q = none →
        searchNumWord "hour".toList q = some n →
        extractTimeLimit engine_time_patterns q = n * 60 ∧
        extractTimeLimit simple_time_patterns q = n * 60) ∧
     (searchNumWord "minute".toList q = none →
        searchNumWord "min".toList q = none →
        searchNumWord "hour".toList q = none →
        searchLessThan q = some n →
        extractTimeLimit engine_time_patterns q = n ∧
        extractTimeLimit simple_time_patterns q = 120) ∧
     (searchNumWord "minute".toList q = none →
        searchNumWord "min".toList q = none →
        searchNumWord "hour".toList q = none →
        searchLessThan q = none →
        extractTimeLimit engine_time_patterns q = 120 ∧
        extractTimeLimit simple_time_patterns q = 120)) ∧
    (∀ s : String, (AssessmentRecommender.parse_query s).time_limit
        = extractTimeLimit engine_time_patterns (s.toList.map Char.toLower)) ∧
    (∀ qc : List Char,
        (SimpleAssessmentRecommender.parse_query qc).time_limit
          = extractTimeLimit simple_time_patterns qc) := by
  refine ⟨⟨?_, ?_, ?_, ?_, ?_⟩, fun s => rfl, fun qc => rfl⟩
  · intro h1
    have g1 : searchNumWord ['m', 'i', 'n', 'u', 't', 'e'] q = some n := h1
    constructor <;>
      simp [extractTimeLimit, engine_time_patterns, simple_time_patterns, g1]
  · intro h1 h2
    have g1 : searchNumWord ['m', 'i', 'n', 'u', 't', 'e'] q = none := h1
    have g2 : searchNumWord ['m', 'i', 'n'] q = some n := h2
    constructor <;>
      simp [extractTimeLimit, engine_time_patterns, simple_time_patterns,
        g1, g2]
  · intro h1 h2 h3
    have g1 : searchNumWord ['m', 'i', 'n', 'u', 't', 'e'] q = none := h1
    have g2 : searchNumWord ['m', 'i', 'n'] q = none := h2
    have g3 : searchNumWord ['h', 'o', 'u', 'r'] q = some n := h3
    constructor <;>
      simp [extractTimeLimit, engine_time_patterns, simple_time_patterns,
        g1, g2, g3]
  · intro h1 h2 h3 h4
    have g1 : searchNumWord ['m', 'i', 'n', 'u', 't', 'e'] q = none := h1
    have g2 : searchNumWord ['m', 'i', 'n'] q = none := h2
    have g3 : searchNumWord ['h', 'o', 'u', 'r'] q = none := h3
    constructor <;>
      simp [extractTimeLimit, engine_time_patterns, simple_time_patterns,
        g1, g2, g3, h4]
  · intro h1 h2 h3 h4
    have g1 : searchNumWord ['m', 'i', 'n', 'u', 't', 'e'] q = none := h1
    have g2 : searchNumWord ['m', 'i', 'n'] q = none := h2
    have g3 : searchNumWord ['h', 'o', 'u', 'r'] q = none := h3
    constructor <;>
      simp [extractTimeLimit, engine_time_patterns, simple_time_patterns,
        g1, g2, g3, h4]

/-- Counterexample to C5 as stated: the claim covers both `parse_query`
implementations, but on "less than 45" the engine extracts 45 via the fourth
pattern while the simple backend — whose list omits "less than" — falls back
to the default 120. -/
theorem claim_C5_counterexample :
    (AssessmentRecommender.parse_query "less than 45").time_limit = 45 ∧
    (SimpleAssessmentRecommender.parse_query
        ("less than 45".toList.map Char.toLower)).time_limit = 120 ∧
    (45 : Nat) ≠ 120 := by
  refine ⟨by decide, by decide, by decide⟩

/-- Concrete instance of C5: on "2 hours or 30 minutes" the first pattern of
the priority list matches (capturing 30), so the hours pattern is never
consulted even though "2 hours" appears first in the text. -/
theorem claim_C5_witness :
    extractTimeLimit engine_time_patterns "2 hours or 30 minutes".toList = 30 ∧
    extractTimeLimit simple_time_patterns "2 hours or 30 minutes".toList = 30 :=
  (claim_C5 "2 hours or 30 minutes".toList 30).1.1 (by decide)

/-! ## Claim C8 -/

theorem fillLoop_eq_byUrl (k : Nat) :
    ∀ (l b L : List Candidate), (∀ x ∈ b, x ∈ L) → (∀ x ∈ l, x ∈ L) →
      (L.map (fun c => c.assessment.url)).Nodup →
      fillLoop k l b = fillLoopByUrl k l b := by
  intro l
  induction l with
  | nil => intro b L _ _ _; rfl
  | cons c rest ih =>
    intro b L hb hl hnd
    have hcL : c ∈ L := hl c (List.mem_cons_self c rest)
    have hmem : c ∈ b ↔
        b.any (fun d => d.assessment.url == c.assessment.url) = true := by
      constructor
      · intro hcb
        exact List.any_eq_true.mpr ⟨c, hcb, by simp⟩
      · intro hany
        obtain ⟨d, hdb, hdu⟩ := List.any_eq_true.mp hany
        have hdc : d = c := List.inj_on_of_nodup_map hnd (hb d hdb) hcL
          (by simpa using hdu)
        exact hdc ▸ hdb
    simp only [fillLoop, fillLoopByUrl]
    by_cases hcb : c ∈ b
    · rw [if_pos hcb, if_pos (hmem.mp hcb)]
      exact ih b L hb (fun x hx => hl x (List.mem_cons_of_mem c hx)) hnd
    · rw [if_neg hcb, if_neg (fun h => hcb (hmem.mpr h))]
      split
      · rfl
      · refine ih (b ++ [c]) L ?_
          (fun x hx => hl x (List.mem_cons_of_mem c hx)) hnd
        intro x hx
        rcases List.mem_append.mp hx with h1 | h1
        · exact hb x h1
        · exact (List.mem_singleton.mp h1) ▸ hcL

/-- C8 (amended): the fill pass's membership test uses Python value equality
of the whole candidate record, not the url; under the catalog invariant that
urls are unique among the candidates, the two keyings coincide — the
balancer equals its url-keyed variant — but records sharing a url are not
conflated by the code when any field differs. -/
theorem claim_C8 (cands : List Candidate) (req : Requirements) (top_k : Nat)
    (hnd : (cands.map (fun c => c.assessment.url)).Nodup) :
    AssessmentRecommender.balance_recommendations cands req top_k
      = balanceByUrl cands req top_k := by
  simp only [AssessmentRecommender.balance_recommendations, balanceByUrl]
  split
  · split
    · exact fillLoop_eq_byUrl top_k cands _ cands
        (fun x hx => mem_perTypeSelect _ _ _ _ x hx) (fun x hx => hx) hnd
    · rfl
  · rfl

/-- Counterexample to C8 as stated: on two candidates that share a url but
differ in `final_score`, the code's value-equality fill pass includes both,
while the url-keyed fill pass the claim describes would include only the
first — the membership test is not keyed on the url. -/
theorem claim_C8_counterexample :
    AssessmentRecommender.balance_recommendations [cexDup1, cexDup2] cexReq 3
        = [cexDup1, cexDup2] ∧
    balanceByUrl [cexDup1, cexDup2] cexReq 3 = [cexDup1] ∧
    cexDup1.assessment.url = cexDup2.assessment.url ∧
    cexDup1 ≠ cexDup2 := by
  refine ⟨by decide, by decide, by decide, by decide⟩

/-- Concrete instance of C8: with pairwise distinct urls the balancer and its
url-keyed variant agree. -/
theorem claim_C8_witness :
    AssessmentRecommender.balance_recommendations
        [Candidate.mk wCog 1 1, Candidate.mk wKnow 1 1] cexReq 3
      = balanceByUrl [Candidate.mk wCog 1 1, Candidate.mk wKnow 1 1]
          cexReq 3 :=
  claim_C8 [Candidate.mk wCog 1 1, Candidate.mk wKnow 1 1] cexReq 3
    (by decide)

/-! ## Nodup of the parsed test-type set and simple-balance bounds -/

theorem insertTT_nodup {t : String} {l : List String} (h : l.Nodup) :
    (insertTT t l).Nodup := by
  unfold insertTT
  split
  · exact h
  · rename_i hn
    rw [List.nodup_append]
    refine ⟨h, List.nodup_singleton t, ?_⟩
    intro a ha hat
    have hateq : a = t := List.mem_singleton.mp hat
    rw [hateq] at ha
    exact hn ha

theorem buildTestTypes_nodup (hasP hasC hasK hasTech hasSoft : Bool) :
    (buildTestTypes hasP hasC hasK hasTech hasSoft).Nodup := by
  cases hasP <;> cases hasC <;> cases hasK <;> cases hasTech <;>
    cases hasSoft <;> decide

theorem parse_query_test_types_nodup (query : String) :
    (AssessmentRecommender.parse_query query).test_types.Nodup := by
  simp only [AssessmentRecommender.parse_query]
  exact buildTestTypes_nodup _ _ _ _ _

theorem simple_parse_query_test_types_nodup (q : List Char) :
    (SimpleAssessmentRecommender.parse_query q).test_types.Nodup := by
  simp only [SimpleAssessmentRecommender.parse_query]
  exact buildTestTypes_nodup _ _ _ _ _

theorem simple_balance_length_le {cands : List SimpleCandidate}
    {req : SimpleRequirements} {top_k : Nat}
    (h2 : 1 < req.test_types.length) :
    (SimpleAssessmentRecommender.balance_recommendations cands req
      top_k).length ≤ top_k := by
  simp only [SimpleAssessmentRecommender.balance_recommendations]
  rw [if_neg (by omega : ¬ req.test_types.length ≤ 1)]
  have hb : (perTypeSelect (fun c => c.assessment.test_type) cands
      (top_k / req.test_types.length) req.test_types).length ≤ top_k :=
    le_trans (perTypeSelect_length_le _ _ _ _) (Nat.div_mul_le_self top_k _)
  have hf := fillLoopCounter_length_le cands
    (perTypeSelect (fun c => c.assessment.test_type) cands
      (top_k / req.test_types.length) req.test_types)
    ((top_k : Int) - (perTypeSelect (fun c => c.assessment.test_type) cands
      (top_k / req.test_types.length) req.test_types).length)
  omega

theorem simple_balance_countP_ge {cands : List SimpleCandidate}
    {req : SimpleRequirements} {top_k : Nat} {t : String}
    (h2 : 1 < req.test_types.length) (ht : t ∈ req.test_types)
    (hcnt : top_k / req.test_types.length
      ≤ (cands.filter (fun c => c.assessment.test_type == t)).length) :
    top_k / req.test_types.length
      ≤ (SimpleAssessmentRecommender.balance_recommendations cands req
          top_k).countP (fun c => c.assessment.test_type == t) := by
  simp only [SimpleAssessmentRecommender.balance_recommendations]
  rw [if_neg (by omega : ¬ req.test_types.length ≤ 1)]
  have hper : top_k / req.test_types.length
      ≤ (perTypeSelect (fun c => c.assessment.test_type) cands
          (top_k / req.test_types.length) req.test_types).countP
          (fun c => c.assessment.test_type == t) := by
    have h0 := perTypeSelect_countP_ge (fun c => c.assessment.test_type)
      cands (top_k / req.test_types.length) req.test_types t ht
    rw [min_eq_left hcnt] at h0
    exact h0
  obtain ⟨e, he⟩ := fillLoopCounter_eq_append cands
    (perTypeSelect (fun c => c.assessment.test_type) cands
      (top_k / req.test_types.length) req.test_types)
    ((top_k : Int) - (perTypeSelect (fun c => c.assessment.test_type) cands
      (top_k / req.test_types.length) req.test_types).length)
  rw [he, List.countP_append]
  omega

theorem simple_balance_subperm {cands : List SimpleCandidate}
    {req : SimpleRequirements} {top_k : Nat} (h : req.test_types.Nodup) :
    (SimpleAssessmentRecommender.balance_recommendations cands req
      top_k).Subperm cands := by
  simp only [SimpleAssessmentRecommender.balance_recommendations]
  split
  · exact List.Subperm.refl _
  · exact fillLoopCounter_subperm cands _ cands _
      (perTypeSelect_subperm _ _ _ _ h) (fun x hx => hx)

theorem scoredList_countP_of_mem {assessments : List Assessment}
    {requirements : SimpleRequirements} {q : List Char} {tl : Nat}
    {u : String} (hu : u ∈ requirements.test_types) :
    (SimpleAssessmentRecommender.scoredList assessments requirements q
        tl).countP (fun c => c.assessment.test_type == u)
      = (assessments.filter (fun a =>
          decide (a.duration_minutes ≤ tl))).countP
          (fun a => a.test_type == u) := by
  induction assessments with
  | nil => rfl
  | cons a rest ih =>
    simp only [SimpleAssessmentRecommender.scoredList, List.filterMap_cons,
      List.filter_cons] at ih ⊢
    by_cases hd : a.duration_minutes ≤ tl
    · rw [if_pos hd]
      by_cases htp : a.test_type = u
      · have hscore : 0 < SimpleAssessmentRecommender.scoreOf requirements
            a q := by
          unfold SimpleAssessmentRecommender.scoreOf
          rw [if_pos ⟨List.ne_nil_of_mem hu, htp ▸ hu⟩]
          omega
        rw [if_pos hscore]
        simp [List.countP_cons, htp, hd, ih]
      · by_cases hscore : 0 < SimpleAssessmentRecommender.scoreOf
            requirements a q
        · rw [if_pos hscore]
          simp [List.countP_cons, htp, hd, ih]
        · rw [if_neg hscore]
          simp [List.countP_cons, htp, hd, ih]
    · rw [if_neg hd]
      simp [hd, ih]

/-! ## Claim C4 -/

/-- C4: for either backend, when the parsed `test_types` has size at least 2
and, among the candidates surviving the time filter, every required type has
at least `top_k / |test_types|` candidates, the returned list contains at
least `top_k / |test_types|` entries of each required type. -/
theorem claim_C4 :
    (∀ (search : String → List (Assessment × ℚ)) (query : String)
        (top_k : Nat) (tlOpt : Option Nat) (t : String),
      2 ≤ (AssessmentRecommender.parse_query query).test_types.length →
      t ∈ (AssessmentRecommender.parse_query query).test_types →
      (∀ u ∈ (AssessmentRecommender.parse_query query).test_types,
        top_k / (AssessmentRecommender.parse_query query).test_types.length
          ≤ ((AssessmentRecommender.scoreFilter
                (AssessmentRecommender.parse_query query)
                (tlOpt.getD (AssessmentRecommender.parse_query
                  query).time_limit) (search query)).filter
              (fun c => c.assessment.test_type == u)).length) →
      top_k / (AssessmentRecommender.parse_query query).test_types.length
        ≤ ((AssessmentRecommender.recommend search query top_k
            tlOpt).filter (fun c => c.assessment.test_type == t)).length) ∧
    (∀ (assessments : List Assessment) (query : String) (top_k : Nat)
        (tlOpt : Option Nat) (t : String),
      2 ≤ (SimpleAssessmentRecommender.parse_query
          (query.toList.map Char.toLower)).test_types.length →
      t ∈ (SimpleAssessmentRecommender.parse_query
          (query.toList.map Char.toLower)).test_types →
      (∀ u ∈ (SimpleAssessmentRecommender.parse_query
          (query.toList.map Char.toLower)).test_types,
        top_k / (SimpleAssessmentRecommender.parse_query
            (query.toList.map Char.toLower)).test_types.length
          ≤ ((assessments.filter (fun a => decide (a.duration_minutes
                ≤ tlOpt.getD (SimpleAssessmentRecommender.parse_query
                  (query.toList.map Char.toLower)).time_limit))).filter
              (fun a => a.test_type == u)).length) →
      top_k / (SimpleAssessmentRecommender.parse_query
          (query.toList.map Char.toLower)).test_types.length
        ≤ ((SimpleAssessmentRecommender.recommend assessments query top_k
            tlOpt).filter (fun c => c.assessment.test_type == t)).length) := by
  constructor
  · intro search query top_k tlOpt t h2 ht hcnt
    have h2p : 1 < (AssessmentRecommender.parse_query
        query).test_types.length := by omega
    simp only [AssessmentRecommender.recommend]
    rw [List.take_of_length_le
      (AssessmentRecommender.balance_length_le_topk h2p)]
    rw [← List.countP_eq_length_filter]
    apply AssessmentRecommender.balance_countP_ge h2p ht
    rw [← List.countP_eq_length_filter]
    rw [(pySortByDesc_perm (fun c : Candidate => c.final_score) _).countP_eq]
    rw [List.countP_eq_length_filter]
    exact hcnt t ht
  · intro assessments query top_k tlOpt t h2 ht hcnt
    have h2p : 1 < (SimpleAssessmentRecommender.parse_query
        (query.toList.map Char.toLower)).test_types.length := by omega
    simp only [SimpleAssessmentRecommender.recommend]
    rw [if_pos h2p]
    rw [List.take_of_length_le (simple_balance_length_le h2p)]
    rw [← List.countP_eq_length_filter]
    apply simple_balance_countP_ge h2p ht
    rw [← List.countP_eq_length_filter]
    rw [(pySortByDesc_perm
      (fun c : SimpleCandidate => c.final_score) _).countP_eq]
    rw [scoredList_countP_of_mem ht]
    rw [List.countP_eq_length_filter]
    exact hcnt t ht

unseal Rat.mul Rat.inv Rat.add Rat.sub in
/-- Concrete instance of C4: the query "personality cognitive" requires the
two types P and C; with two eligible candidates of each type and `top_k = 4`
(`slots = 2`), both backends return at least two P entries. -/
theorem claim_C4_witness :
    (4 / (AssessmentRecommender.parse_query
          "personality cognitive").test_types.length
      ≤ ((AssessmentRecommender.recommend w4search "personality cognitive" 4
          none).filter (fun c => c.assessment.test_type == "P")).length) ∧
    (4 / (SimpleAssessmentRecommender.parse_query
          ("personality cognitive".toList.map Char.toLower)).test_types.length
      ≤ ((SimpleAssessmentRecommender.recommend [w4P1, w4P2, w4C1, w4C2]
          "personality cognitive" 4 none).filter
          (fun c => c.assessment.test_type == "P")).length) :=
  ⟨claim_C4.1 w4search "personality cognitive" 4 none "P"
      (by decide) (by decide) (by decide),
   claim_C4.2 [w4P1, w4P2, w4C1, w4C2] "personality cognitive" 4 none "P"
      (by decide) (by decide) (by decide)⟩

/-! ## Claim C6 -/

theorem engine_recommend_length_le (search : String → List (Assessment × ℚ))
    (query : String) (top_k : Nat) (tlOpt : Option Nat) :
    (AssessmentRecommender.recommend search query top_k tlOpt).length
      ≤ ((search query).filter (fun p => decide (p.1.duration_minutes
          ≤ tlOpt.getD (AssessmentRecommender.parse_query
            query).time_limit))).length := by
  simp only [AssessmentRecommender.recommend]
  rw [List.length_take]
  refine le_trans (min_le_right _ _) ?_
  refine le_trans (AssessmentRecommender.balance_subperm
    (parse_query_test_types_nodup query)).length_le ?_
  rw [(pySortByDesc_perm (fun c : Candidate => c.final_score) _).length_eq]
  exact le_of_eq (AssessmentRecommender.scoreFilter_length _ _ _)

theorem simple_recommend_length_le (assessments : List Assessment)
    (query : String) (top_k : Nat) (tlOpt : Option Nat) :
    (SimpleAssessmentRecommender.recommend assessments query top_k
        tlOpt).length
      ≤ (assessments.filter (fun a => decide (a.duration_minutes
          ≤ tlOpt.getD (SimpleAssessmentRecommender.parse_query
            (query.toList.map Char.toLower)).time_limit))).length := by
  simp only [SimpleAssessmentRecommender.recommend]
  rw [List.length_take]
  refine le_trans (min_le_right _ _) ?_
  have hrest : (pySortByDesc (fun c : SimpleCandidate => c.final_score)
      (SimpleAssessmentRecommender.scoredList assessments
        (SimpleAssessmentRecommender.parse_query
          (query.toList.map Char.toLower))
        (query.toList.map Char.toLower)
        (tlOpt.getD (SimpleAssessmentRecommender.parse_query
          (query.toList.map Char.toLower)).time_limit))).length
      ≤ (assessments.filter (fun a => decide (a.duration_minutes
          ≤ tlOpt.getD (SimpleAssessmentRecommender.parse_query
            (query.toList.map Char.toLower)).time_limit))).length := by
    rw [(pySortByDesc_perm
      (fun c : SimpleCandidate => c.final_score) _).length_eq]
    exact SimpleAssessmentRecommender.scoredList_length_le _ _ _ _
  split
  · exact le_trans (simple_balance_subperm
      (simple_parse_query_test_types_nodup _)).length_le hrest
  · exact hrest

/-- C6: for either backend, the returned list has length at most `top_k` and
at most the number of candidates surviving the time filter, and when no
candidate survives the result is the empty list rather than an error. -/
theorem claim_C6 :
    (∀ (search : String → List (Assessment × ℚ)) (query : String)
        (top_k : Nat) (tlOpt : Option Nat),
      (AssessmentRecommender.recommend search query top_k tlOpt).length
          ≤ top_k ∧
      (AssessmentRecommender.recommend search query top_k tlOpt).length
        ≤ ((search query).filter (fun p => decide (p.1.duration_minutes
            ≤ tlOpt.getD (AssessmentRecommender.parse_query
              query).time_limit))).length ∧
      ((search query).filter (fun p => decide (p.1.duration_minutes
            ≤ tlOpt.getD (AssessmentRecommender.parse_query
              query).time_limit)) = [] →
        AssessmentRecommender.recommend search query top_k tlOpt = [])) ∧
    (∀ (assessments : List Assessment) (query : String) (top_k : Nat)
        (tlOpt : Option Nat),
      (SimpleAssessmentRecommender.recommend assessments query top_k
          tlOpt).length ≤ top_k ∧
      (SimpleAssessmentRecommender.recommend assessments query top_k
          tlOpt).length
        ≤ (assessments.filter (fun a => decide (a.duration_minutes
            ≤ tlOpt.getD (SimpleAssessmentRecommender.parse_query
              (query.toList.map Char.toLower)).time_limit))).length ∧
      (assessments.filter (fun a => decide (a.duration_minutes
            ≤ tlOpt.getD (SimpleAssessmentRecommender.parse_query
              (query.toList.map Char.toLower)).time_limit)) = [] →
        SimpleAssessmentRecommender.recommend assessments query top_k
          tlOpt = [])) := by
  constructor
  · intro search query top_k tlOpt
    refine ⟨?_, engine_recommend_length_le search query top_k tlOpt, ?_⟩
    · simp only [AssessmentRecommender.recommend]
      rw [List.length_take]
      exact min_le_left _ _
    · intro hnil
      have h := engine_recommend_length_le search query top_k tlOpt
      rw [hnil] at h
      simp only [List.length_nil, Nat.le_zero] at h
      exact List.eq_nil_of_length_eq_zero h
  · intro assessments query top_k tlOpt
    refine ⟨?_, simple_recommend_length_le assessments query top_k tlOpt, ?_⟩
    · simp only [SimpleAssessmentRecommender.recommend]
      rw [List.length_take]
      exact min_le_left _ _
    · intro hnil
      have h := simple_recommend_length_le assessments query top_k tlOpt
      rw [hnil] at h
      simp only [List.length_nil, Nat.le_zero] at h
      exact List.eq_nil_of_length_eq_zero h

/-- Concrete instance of C6: with only a 90-minute assessment available and a
parsed limit of 40 minutes, both backends return the empty list rather than
an error. -/
theorem claim_C6_witness :
    AssessmentRecommender.recommend (fun _ => [(wKnow, 1)]) "40 minutes" 5
        none = [] ∧
    SimpleAssessmentRecommender.recommend [wKnow] "40 minutes" 5 none = [] := by
  constructor
  · exact (claim_C6.1 (fun _ => [(wKnow, 1)]) "40 minutes" 5 none).2.2
      (by decide)
  · exact (claim_C6.2 [wKnow] "40 minutes" 5 none).2.2 (by decide)
